import Mathlib

/-!
Verification of the animation-scheduling and state-reconciliation core of
the fhinck-agents-dashboard repository.

The embedding below follows the two source modules that implement the core:

* `src/js/animation-queue.js` — the bounded FIFO work queue of animation
  intents, its enqueue-time deduplication/optimization rules, the single
  consumer loop, and the status/clear/force-stop control surface.
* `src/js/agents-store.js` — the local mirror of remote agent records and
  the status-diffing handlers that emit animation intents.

JavaScript values are embedded as follows: the `type` field of an event is
a `String` (the code compares it to the literals "focus" and "unfocus" and
other strings flow through untouched); `currentAnimation` is an
`Option AnimEvent` (`null` becomes `none`, and the optional-chaining
comparison `currentAnimation?.agentId !== event.agentId` is true when
`currentAnimation` is `null`); a JS `Map` is an association list with
unique keys, with `set` replacing in place or appending, `get` returning
an `Option`, and `delete` removing the key's entry.  The consumer loop is
async but, per the single-threaded cooperative model of the host, runs as
a sequential drain; we record its externally visible actions (renderer
invocations, timed waits, error logging, and the setting/clearing of the
in-flight reference) as an explicit trace.
-/

/-- An animation event, as built by the agents store and queued by
`queueAnimation` (fields `type`, `agentId`, `task`, plus the `queuedAt`
diagnostic timestamp that `queueAnimation` stamps on push). -/
structure AnimEvent where
  type : String
  agentId : String
  task : Option String := none
  queuedAt : Nat := 0
deriving DecidableEq, Repr

/-- The `CONFIG` object of `animation-queue.js`. -/
structure AnimConfig where
  animationDuration : Nat
  focusDisplayTime : Nat
  transitionDelay : Nat
  maxQueueSize : Nat
deriving DecidableEq, Repr

/-- Default configuration values from `animation-queue.js`. -/
def CONFIG : AnimConfig :=
  { animationDuration := 1000
    focusDisplayTime := 5000
    transitionDelay := 500
    maxQueueSize := 50 }

/-- The module-level mutable state of `animation-queue.js`: the pending
queue, the `isProcessing` flag, and the `currentAnimation` reference. -/
structure QueueState where
  queue : List AnimEvent
  isProcessing : Bool
  currentAnimation : Option AnimEvent
deriving DecidableEq, Repr

/-- `queue.find(e => e.type === 'unfocus' && e.agentId === agentId)`
returned a hit. -/
def hasPendingUnfocus (agentId : String) (q : List AnimEvent) : Bool :=
  q.any fun e => e.type = "unfocus" && e.agentId = agentId

/-- `queue.findIndex(e => e.type === 'focus' && e.agentId === agentId)`
is not `-1`. -/
def hasPendingFocus (agentId : String) (q : List AnimEvent) : Bool :=
  q.any fun e => e.type = "focus" && e.agentId = agentId

/-- `currentAnimation?.agentId === agentId`: false when `currentAnimation`
is `null` (optional chaining yields `undefined`). -/
def currentIsAgent (cur : Option AnimEvent) (agentId : String) : Bool :=
  match cur with
  | some c => c.agentId = agentId
  | none => false

/-- `queue.splice(pendingFocusIndex, 1)` where `pendingFocusIndex` is the
first index holding a `focus` for `agentId`: removes that one entry. -/
def removeFirstFocus (agentId : String) : List AnimEvent → List AnimEvent
  | [] => []
  | e :: rest =>
    if e.type = "focus" && e.agentId = agentId then rest
    else e :: removeFirstFocus agentId rest

/-- `{...event, queuedAt: Date.now()}`. -/
def stampEvent (now : Nat) (e : AnimEvent) : AnimEvent :=
  { e with queuedAt := now }

/-- The overflow guard at the top of `queueAnimation`: `if (queue.length
>= CONFIG.MAX_QUEUE_SIZE) queue.shift()` (on an empty queue `shift()` is a
no-op, as is `tail`). -/
def shiftIfFull (cfg : AnimConfig) (q : List AnimEvent) : List AnimEvent :=
  if cfg.maxQueueSize ≤ q.length then q.tail else q

/-- The enqueue path of `queueAnimation(event)` from `animation-queue.js`,
acting on the pending queue (the trailing `processQueue()` call is modelled
separately by `processQueue`).  In source order: (1) if the queue length is
at or above `CONFIG.MAX_QUEUE_SIZE`, `queue.shift()` drops the oldest
entry; (2) for an `unfocus` event, an already-pending `unfocus` for the
same agent makes the new event be discarded; (3) for an `unfocus` event, a
pending `focus` for the same agent is removed instead of enqueueing, when
that agent is not the `currentAnimation`; (4) otherwise the event is pushed
with a `queuedAt` stamp. -/
def queueAnimation (cfg : AnimConfig) (cur : Option AnimEvent)
    (q : List AnimEvent) (event : AnimEvent) (now : Nat) : List AnimEvent :=
  let q1 := shiftIfFull cfg q
  if event.type = "unfocus" && hasPendingUnfocus event.agentId q1 then
    q1
  else if event.type = "unfocus" && hasPendingFocus event.agentId q1
      && !(currentIsAgent cur event.agentId) then
    removeFirstFocus event.agentId q1
  else
    q1 ++ [stampEvent now event]

example :
    queueAnimation CONFIG none [] ⟨"focus", "a1", some "build", 0⟩ 7
      = [⟨"focus", "a1", some "build", 7⟩] := by decide

example :
    queueAnimation CONFIG none [⟨"focus", "a1", some "build", 7⟩]
      ⟨"unfocus", "a1", none, 0⟩ 9 = [] := by decide

example :
    queueAnimation CONFIG none [⟨"unfocus", "a1", none, 3⟩]
      ⟨"unfocus", "a1", none, 0⟩ 9 = [⟨"unfocus", "a1", none, 3⟩] := by
  decide

/-- Externally visible actions of the consumer loop `processQueue`, in
program order: `beginService e` records dequeueing `e` and setting
`currentAnimation = e` (with `isProcessing = true`); `callFocus` /
`callUnfocus` are invocations of the renderer primitives `animateFocus` /
`animateUnfocus`; `sleepFor ms` is an `await sleep(ms)`; `errorLogged`
is the `console.error` in the catch block; `finishService e` records
`currentAnimation = null; isProcessing = false` for `e`. -/
inductive TraceEv where
  | beginService (e : AnimEvent)
  | callFocus (agentId : String) (task : Option String)
  | callUnfocus (agentId : String)
  | sleepFor (ms : Nat)
  | errorLogged (agentId : String)
  | finishService (e : AnimEvent)
deriving DecidableEq, Repr

/-- A renderer behaviour oracle: `R e = true` means the renderer primitive
invoked for `e` resolves normally, `R e = false` means it throws or
rejects. -/
def RendererOracle : Type := AnimEvent → Bool

/-- The body of `processQueue`'s try/catch for one dequeued event: a
`focus` event invokes `animateFocus(agentId, task)` and, if it resolves,
sleeps `FOCUS_DISPLAY_TIME`; an `unfocus` event invokes
`animateUnfocus(agentId)` and, if it resolves, sleeps `TRANSITION_DELAY`;
a throwing primitive is caught and logged (the sleep after it is skipped);
any other event type does nothing. -/
def serviceActions (cfg : AnimConfig) (R : RendererOracle)
    (e : AnimEvent) : List TraceEv :=
  if e.type = "focus" then
    if R e then
      [TraceEv.callFocus e.agentId e.task, TraceEv.sleepFor cfg.focusDisplayTime]
    else
      [TraceEv.callFocus e.agentId e.task, TraceEv.errorLogged e.agentId]
  else if e.type = "unfocus" then
    if R e then
      [TraceEv.callUnfocus e.agentId, TraceEv.sleepFor cfg.transitionDelay]
    else
      [TraceEv.callUnfocus e.agentId, TraceEv.errorLogged e.agentId]
  else
    []

/-- One full service cycle for a dequeued event: set it as in flight, run
the try/catch body, then clear the in-flight reference and running flag. -/
def serviceBlock (cfg : AnimConfig) (R : RendererOracle)
    (e : AnimEvent) : List TraceEv :=
  TraceEv.beginService e :: serviceActions cfg R e
    ++ [TraceEv.finishService e]

/-- The self-rescheduling tail of `processQueue()`: each pending event is
serviced in order, and `if (queue.length > 0) processQueue()` chains to
the next. -/
def processLoop (cfg : AnimConfig) (R : RendererOracle) :
    List AnimEvent → List TraceEv
  | [] => []
  | e :: rest => serviceBlock cfg R e ++ processLoop cfg R rest

/-- The consumer loop `processQueue()` of `animation-queue.js`, drained to
quiescence under the single-threaded cooperative model: it returns
immediately when `isProcessing` is set or the queue is empty; otherwise it
shifts the head, services it (setting and then clearing `currentAnimation`
and `isProcessing`), and chains through the remaining events, ending with
an empty queue, `isProcessing = false`, and `currentAnimation = null`.
The result is the final state together with the trace of visible
actions. -/
def processQueue (cfg : AnimConfig) (R : RendererOracle)
    (st : QueueState) : QueueState × List TraceEv :=
  if st.isProcessing then (st, [])
  else
    match st.queue with
    | [] => (st, [])
    | e :: rest =>
      (⟨[], false, none⟩, serviceBlock cfg R e ++ processLoop cfg R rest)

/-- The object returned by `getQueueStatus()`. -/
structure QueueStatus where
  length : Nat
  isProcessing : Bool
  currentAnimation : Option AnimEvent
  items : List AnimEvent
deriving DecidableEq, Repr

/-- `getQueueStatus()` from `animation-queue.js`. -/
def getQueueStatus (st : QueueState) : QueueStatus :=
  { length := st.queue.length
    isProcessing := st.isProcessing
    currentAnimation := st.currentAnimation
    items := st.queue }

/-- `clearQueue()` from `animation-queue.js`: `queue.length = 0` only. -/
def clearQueue (st : QueueState) : QueueState :=
  { st with queue := [] }

/-- `forceStopAnimations()` from `animation-queue.js`: clear the queue,
reset `isProcessing` and `currentAnimation`, and call
`renderer.resetAllStates()` when `getRenderer()` is non-null.
`rendererInit` models whether `initRenderer` has set `rendererInstance`;
the returned number counts the `resetAllStates` invocations made during
the call. -/
def forceStopAnimations (st : QueueState) (rendererInit : Bool) :
    QueueState × Nat :=
  let st1 := clearQueue st
  let st2 : QueueState := { st1 with isProcessing := false, currentAnimation := none }
  (st2, if rendererInit then 1 else 0)

example :
    processQueue CONFIG (fun _ => true)
        ⟨[⟨"focus", "a1", some "b", 0⟩], false, none⟩
      = (⟨[], false, none⟩,
         [TraceEv.beginService ⟨"focus", "a1", some "b", 0⟩,
          TraceEv.callFocus "a1" (some "b"), TraceEv.sleepFor 5000,
          TraceEv.finishService ⟨"focus", "a1", some "b", 0⟩]) := by
  decide

/-- An agent record as assembled by the Firestore snapshot handler in
`agents-store.js` (`id` from the document id, `status` and `currentTask`
from the document data; display metadata is opaque to the core). -/
structure AgentRecord where
  id : String
  name : String := ""
  status : String
  currentTask : Option String := none
deriving DecidableEq, Repr

/-- `Map.prototype.set`: replace the value at an existing key in place,
else append a new entry. -/
def mapSet {α : Type} (k : String) (v : α) :
    List (String × α) → List (String × α)
  | [] => [(k, v)]
  | (k1, v1) :: rest =>
    if k1 = k then (k, v) :: rest else (k1, v1) :: mapSet k v rest

/-- `Map.prototype.get`: the value at a key, `undefined` becoming
`none`. -/
def mapGet {α : Type} (k : String) (m : List (String × α)) : Option α :=
  (m.find? fun p => p.1 = k).map Prod.snd

/-- `Map.prototype.delete`: drop the entry at a key (keys are unique in a
JS `Map`; on a unique-key association list this removes at most one
entry). -/
def mapDelete {α : Type} (k : String) (m : List (String × α)) :
    List (String × α) :=
  m.filter fun p => ¬(p.1 = k)

/-- The module-level state of `agents-store.js`: the `agents` map and the
`previousStatuses` map. -/
structure StoreState where
  agents : List (String × AgentRecord)
  previousStatuses : List (String × String)
deriving DecidableEq, Repr

/-- The `focus` event built by the store's `queueAnimation({type: 'focus',
agentId, task})` calls. -/
def mkFocusEvent (agentId : String) (task : Option String) : AnimEvent :=
  { type := "focus", agentId := agentId, task := task }

/-- The `unfocus` event built by the store's `queueAnimation({type:
'unfocus', agentId})` calls. -/
def mkUnfocusEvent (agentId : String) : AnimEvent :=
  { type := "unfocus", agentId := agentId }

/-- `handleAgentAdded(agent)` from `agents-store.js`: store the record,
record its status in `previousStatuses`, and, if the agent is already
`working`, emit a `focus` intent with its current task.  The returned
list holds the intents passed to `queueAnimation`, in order. -/
def handleAgentAdded (st : StoreState) (agent : AgentRecord) :
    StoreState × List AnimEvent :=
  let st1 : StoreState :=
    { agents := mapSet agent.id agent st.agents
      previousStatuses := mapSet agent.id agent.status st.previousStatuses }
  if agent.status = "working" then
    (st1, [mkFocusEvent agent.id agent.currentTask])
  else
    (st1, [])

/-- `handleAgentModified(agent)` from `agents-store.js`: overwrite the
stored record; if the status differs from the `previousStatuses` entry
(`undefined` compares unequal to any string), emit a `focus` intent when
the new status is `working`, an `unfocus` intent when the new status is
`idle` and the previous was `working`, nothing otherwise, and record the
new status; if the status is unchanged, do nothing further. -/
def handleAgentModified (st : StoreState) (agent : AgentRecord) :
    StoreState × List AnimEvent :=
  let previousStatus := mapGet agent.id st.previousStatuses
  let agents1 := mapSet agent.id agent st.agents
  if previousStatus ≠ some agent.status then
    let intents :=
      if agent.status = "working" then
        [mkFocusEvent agent.id agent.currentTask]
      else if agent.status = "idle" ∧ previousStatus = some "working" then
        [mkUnfocusEvent agent.id]
      else
        []
    (⟨agents1, mapSet agent.id agent.status st.previousStatuses⟩, intents)
  else
    (⟨agents1, st.previousStatuses⟩, [])

/-- `handleAgentRemoved(agent)` from `agents-store.js`: delete the record
and its `previousStatuses` entry; no intent is queued. -/
def handleAgentRemoved (st : StoreState) (agent : AgentRecord) :
    StoreState × List AnimEvent :=
  (⟨mapDelete agent.id st.agents, mapDelete agent.id st.previousStatuses⟩, [])

example :
    (handleAgentModified
        ⟨[("a1", ⟨"a1", "", "idle", none⟩)], [("a1", "idle")]⟩
        ⟨"a1", "", "working", some "build"⟩).2
      = [mkFocusEvent "a1" (some "build")] := by decide

example :
    (handleAgentModified
        ⟨[("a1", ⟨"a1", "", "working", some "build"⟩)], [("a1", "working")]⟩
        ⟨"a1", "", "idle", none⟩).2
      = [mkUnfocusEvent "a1"] := by decide

theorem mapGet_mapSet_self {α : Type} (k : String) (v : α)
    (m : List (String × α)) : mapGet k (mapSet k v m) = some v := by
  induction m with
  | nil => simp [mapSet, mapGet]
  | cons p rest ih =>
    by_cases h : p.1 = k
    · simp [mapSet, mapGet, h]
    · simpa [mapSet, mapGet, List.find?, h] using ih

theorem mapGet_mapDelete_self {α : Type} (k : String)
    (m : List (String × α)) : mapGet k (mapDelete k m) = none := by
  induction m with
  | nil => rfl
  | cons p rest ih =>
    by_cases h : p.1 = k
    · simpa [mapDelete, List.filter, h] using ih
    · simpa [mapDelete, mapGet, List.filter, List.find?, h] using ih

theorem removeFirstFocus_of_no_focus (a : String) (q : List AnimEvent)
    (h : hasPendingFocus a q = false) : removeFirstFocus a q = q := by
  induction q with
  | nil => rfl
  | cons e rest ih =>
    cases hb : (decide (e.type = "focus") && decide (e.agentId = a)) with
    | false =>
      simp only [hasPendingFocus, List.any_cons, hb, Bool.false_or] at h
      simp [removeFirstFocus, hb, ih h]
    | true =>
      simp [hasPendingFocus, List.any_cons, hb] at h

theorem removeFirstFocus_length (a : String) (q : List AnimEvent)
    (h : hasPendingFocus a q = true) :
    (removeFirstFocus a q).length + 1 = q.length := by
  induction q with
  | nil => simp [hasPendingFocus] at h
  | cons e rest ih =>
    cases hb : (decide (e.type = "focus") && decide (e.agentId = a)) with
    | false =>
      simp only [hasPendingFocus, List.any_cons, hb, Bool.false_or] at h
      have hr := ih h
      simp [removeFirstFocus, hb]
      omega
    | true =>
      simp [removeFirstFocus, hb]

theorem removeFirstFocus_append_left_none (a : String)
    (q r : List AnimEvent) (h : hasPendingFocus a q = false) :
    removeFirstFocus a (q ++ r) = q ++ removeFirstFocus a r := by
  induction q with
  | nil => rfl
  | cons e rest ih =>
    cases hb : (decide (e.type = "focus") && decide (e.agentId = a)) with
    | false =>
      simp only [hasPendingFocus, List.any_cons, hb, Bool.false_or] at h
      simp [removeFirstFocus, hb, ih h]
    | true =>
      simp [hasPendingFocus, List.any_cons, hb] at h

/-- C3 (amended): while the queue is below the configured maximum,
enqueueing an `unfocus` for an agent that already has a pending `unfocus`
discards the new intent and leaves the queue unchanged (in particular its
length).  At or above the maximum this fails: the overflow rule drops the
oldest pending intent before the duplicate scan runs, so the net effect
depends on where the pending `unfocus` sits — the counterexample below
shows a full queue whose length changes from 50 to 49 even though the
duplicate is discarded. -/
theorem duplicate_unfocus_suppressed (cfg : AnimConfig)
    (cur : Option AnimEvent) (q : List AnimEvent) (a : String) (now : Nat)
    (hdup : hasPendingUnfocus a q = true)
    (hroom : q.length < cfg.maxQueueSize) :
    queueAnimation cfg cur q (mkUnfocusEvent a) now = q := by
  have hshift : ¬ cfg.maxQueueSize ≤ q.length := Nat.not_le.mpr hroom
  simp [queueAnimation, shiftIfFull, hshift, mkUnfocusEvent, hdup]

theorem duplicate_unfocus_suppressed_witness :
    queueAnimation CONFIG none [mkUnfocusEvent "a1"] (mkUnfocusEvent "a1") 9
      = [mkUnfocusEvent "a1"] :=
  duplicate_unfocus_suppressed CONFIG none [mkUnfocusEvent "a1"] "a1" 9
    (by decide) (by decide)

/-- C3 counterexample: at a full queue (the default bound is 50) the
overflow rule runs before duplicate suppression, so even though the new
duplicate `unfocus` is discarded, the oldest pending intent has already
been dropped and the queue length decreases from 50 to 49. -/
theorem duplicate_unfocus_full_queue_counterexample :
    hasPendingUnfocus "a1"
        (List.replicate 49 (mkFocusEvent "b1" none) ++ [mkUnfocusEvent "a1"])
      = true ∧
    (List.replicate 49 (mkFocusEvent "b1" none) ++ [mkUnfocusEvent "a1"]).length
      = CONFIG.maxQueueSize ∧
    (queueAnimation CONFIG none
        (List.replicate 49 (mkFocusEvent "b1" none) ++ [mkUnfocusEvent "a1"])
        (mkUnfocusEvent "a1") 9).length = 49 := by
  decide

/-- C2 (amended): provided no pending `unfocus` for the agent exists in
the queue (duplicate suppression runs first and would otherwise discard
the new intent without touching the pending `focus`), the current intent
is not for that agent, and the queue has room, enqueueing an `unfocus`
removes the first pending `focus` for the agent without appending the
`unfocus` (shrinking the queue by one); consequently enqueueing
`focus(A)` then `unfocus(A)` on a queue with no pending intent for `A`
restores the original queue. -/
theorem unfocus_cancels_pending_focus (cfg : AnimConfig)
    (cur : Option AnimEvent) (q : List AnimEvent) (a : String)
    (t : Option String) (n1 n2 : Nat)
    (hcur : currentIsAgent cur a = false)
    (hnou : hasPendingUnfocus a q = false)
    (hroom : q.length + 1 < cfg.maxQueueSize) :
    (hasPendingFocus a q = true →
      queueAnimation cfg cur q (mkUnfocusEvent a) n2 = removeFirstFocus a q ∧
      (queueAnimation cfg cur q (mkUnfocusEvent a) n2).length + 1 = q.length) ∧
    (hasPendingFocus a q = false →
      queueAnimation cfg cur
          (queueAnimation cfg cur q (mkFocusEvent a t) n1)
          (mkUnfocusEvent a) n2 = q) := by
  have hq : q.length < cfg.maxQueueSize := Nat.lt_of_succ_lt hroom
  have hshift : ¬ cfg.maxQueueSize ≤ q.length := Nat.not_le.mpr hq
  constructor
  · intro hfoc
    have hmain : queueAnimation cfg cur q (mkUnfocusEvent a) n2
        = removeFirstFocus a q := by
      simp [queueAnimation, shiftIfFull, hshift, mkUnfocusEvent, hnou, hfoc, hcur]
    refine ⟨hmain, ?_⟩
    rw [hmain]
    exact removeFirstFocus_length a q hfoc
  · intro hfoc
    have h1 : queueAnimation cfg cur q (mkFocusEvent a t) n1
        = q ++ [stampEvent n1 (mkFocusEvent a t)] := by
      simp [queueAnimation, shiftIfFull, hshift, mkFocusEvent]
    rw [h1]
    have hlen2 : ¬ cfg.maxQueueSize ≤ q.length + 1 := by omega
    have hnou2 : hasPendingUnfocus a
        (q ++ [stampEvent n1 (mkFocusEvent a t)]) = false := by
      simp only [hasPendingUnfocus, List.any_append, Bool.or_eq_false_iff]
      exact ⟨hnou, by simp [stampEvent, mkFocusEvent]⟩
    have hfoc2 : hasPendingFocus a
        (q ++ [stampEvent n1 (mkFocusEvent a t)]) = true := by
      simp [hasPendingFocus, List.any_append, stampEvent, mkFocusEvent]
    have hrem : removeFirstFocus a (q ++ [stampEvent n1 (mkFocusEvent a t)])
        = q := by
      rw [removeFirstFocus_append_left_none a q _ hfoc]
      simp [removeFirstFocus, stampEvent, mkFocusEvent]
    simp [queueAnimation, shiftIfFull, hlen2, mkUnfocusEvent, hnou2, hfoc2, hcur, hrem]

theorem unfocus_cancels_pending_focus_witness :
    (hasPendingFocus "a1" [mkFocusEvent "a1" (some "b")] = true →
      queueAnimation CONFIG none [mkFocusEvent "a1" (some "b")]
          (mkUnfocusEvent "a1") 9
        = removeFirstFocus "a1" [mkFocusEvent "a1" (some "b")] ∧
      (queueAnimation CONFIG none [mkFocusEvent "a1" (some "b")]
          (mkUnfocusEvent "a1") 9).length + 1
        = [mkFocusEvent "a1" (some "b")].length) ∧
    (hasPendingFocus "a1" [mkFocusEvent "a1" (some "b")] = false →
      queueAnimation CONFIG none
          (queueAnimation CONFIG none [mkFocusEvent "a1" (some "b")]
            (mkFocusEvent "a1" (some "b")) 7)
          (mkUnfocusEvent "a1") 9 = [mkFocusEvent "a1" (some "b")]) :=
  unfocus_cancels_pending_focus CONFIG none [mkFocusEvent "a1" (some "b")]
    "a1" (some "b") 7 9 (by decide) (by decide) (by decide)

/-- C2 counterexample: with queue `[unfocus(a1), focus(a1)]` and the
current intent servicing `b1`, the claim's guard holds (a pending `focus`
for `a1` exists and `a1` is not being serviced), yet enqueueing
`unfocus(a1)` is discarded by duplicate suppression and the pending
`focus(a1)` is NOT removed. -/
theorem dup_unfocus_preempts_cancellation_counterexample :
    hasPendingFocus "a1" [mkUnfocusEvent "a1", mkFocusEvent "a1" none]
      = true ∧
    currentIsAgent (some (mkFocusEvent "b1" none)) "a1" = false ∧
    queueAnimation CONFIG (some (mkFocusEvent "b1" none))
        [mkUnfocusEvent "a1", mkFocusEvent "a1" none] (mkUnfocusEvent "a1") 9
      = [mkUnfocusEvent "a1", mkFocusEvent "a1" none] ∧
    hasPendingFocus "a1"
        (queueAnimation CONFIG (some (mkFocusEvent "b1" none))
          [mkUnfocusEvent "a1", mkFocusEvent "a1" none]
          (mkUnfocusEvent "a1") 9) = true := by
  decide

/-- C7: `clear()` empties the pending queue and leaves the running flag
and the currently-serviced intent reference unchanged. -/
theorem clearQueue_empties_and_preserves_flags (st : QueueState) :
    (clearQueue st).queue = [] ∧
    (clearQueue st).isProcessing = st.isProcessing ∧
    (clearQueue st).currentAnimation = st.currentAnimation :=
  ⟨rfl, rfl, rfl⟩

/-- C8: after `forceStop()` (with the renderer initialized, as it is from
app startup), `status()` reports queue length 0, running flag false, and
no currently-serviced intent, and `resetAllStates` was invoked exactly
once during the call. -/
theorem forceStop_resets_and_calls_reset_once (st : QueueState) :
    getQueueStatus (forceStopAnimations st true).1
        = ⟨0, false, none, []⟩ ∧
    (forceStopAnimations st true).2 = 1 :=
  ⟨rfl, rfl⟩

theorem removeFirstFocus_length_le (a : String) (q : List AnimEvent) :
    (removeFirstFocus a q).length ≤ q.length := by
  induction q with
  | nil => simp [removeFirstFocus]
  | cons e rest ih =>
    cases hb : (decide (e.type = "focus") && decide (e.agentId = a)) with
    | false =>
      simp only [removeFirstFocus, hb, Bool.false_eq_true, if_false,
        List.length_cons]
      omega
    | true => simp [removeFirstFocus, hb]

theorem queueAnimation_length_le (cfg : AnimConfig) (cur : Option AnimEvent)
    (q : List AnimEvent) (e : AnimEvent) (now : Nat)
    (hmax : 1 ≤ cfg.maxQueueSize) (hq : q.length ≤ cfg.maxQueueSize) :
    (queueAnimation cfg cur q e now).length ≤ cfg.maxQueueSize := by
  have key : (shiftIfFull cfg q).length + 1 ≤ cfg.maxQueueSize := by
    unfold shiftIfFull
    by_cases hs : cfg.maxQueueSize ≤ q.length
    · simp only [hs, if_true, List.length_tail]; omega
    · simp only [hs, if_false]; omega
  have hrem := removeFirstFocus_length_le e.agentId (shiftIfFull cfg q)
  simp only [queueAnimation]
  split
  · omega
  · split
    · omega
    · simp only [List.length_append, List.length_cons, List.length_nil]
      omega

theorem queueAnimation_append_nonunfocus (cfg : AnimConfig)
    (cur : Option AnimEvent) (q : List AnimEvent) (e : AnimEvent) (now : Nat)
    (hne : e.type ≠ "unfocus") :
    queueAnimation cfg cur q e now = shiftIfFull cfg q ++ [stampEvent now e] := by
  have hb : decide (e.type = "unfocus") = false := decide_eq_false hne
  simp [queueAnimation, hb]

/-- `queueAnimation` applied to each event of a list in turn, oldest
first (the raw notification order seen by the queue). -/
def enqueueAll (cfg : AnimConfig) (cur : Option AnimEvent) (now : Nat)
    (q : List AnimEvent) (events : List AnimEvent) : List AnimEvent :=
  events.foldl (fun acc e => queueAnimation cfg cur acc e now) q

theorem enqueueAll_length_le (cfg : AnimConfig) (cur : Option AnimEvent)
    (now : Nat) (hmax : 1 ≤ cfg.maxQueueSize) :
    ∀ (events : List AnimEvent) (q : List AnimEvent),
      q.length ≤ cfg.maxQueueSize →
      (enqueueAll cfg cur now q events).length ≤ cfg.maxQueueSize := by
  intro events
  induction events with
  | nil => intro q hq; simpa [enqueueAll] using hq
  | cons e rest ih =>
    intro q hq
    exact ih (queueAnimation cfg cur q e now)
      (queueAnimation_length_le cfg cur q e now hmax hq)

theorem enqueueAll_of_room (cfg : AnimConfig) (cur : Option AnimEvent)
    (now : Nat) :
    ∀ (events : List AnimEvent) (q : List AnimEvent),
      (∀ e ∈ events, e.type = "focus") →
      q.length + events.length ≤ cfg.maxQueueSize →
      enqueueAll cfg cur now q events = q ++ events.map (stampEvent now) := by
  intro events
  induction events with
  | nil => intro q _ _; simp [enqueueAll]
  | cons e rest ih =>
    intro q hfo hroom
    have he : e.type = "focus" := hfo e (List.mem_cons_self e rest)
    have hne : e.type ≠ "unfocus" := by rw [he]; decide
    have hq : ¬ cfg.maxQueueSize ≤ q.length := by
      simp only [List.length_cons] at hroom; omega
    have h1 : queueAnimation cfg cur q e now = q ++ [stampEvent now e] := by
      rw [queueAnimation_append_nonunfocus cfg cur q e now hne,
        shiftIfFull, if_neg hq]
    have h2 := ih (q ++ [stampEvent now e])
      (fun x hx => hfo x (List.mem_cons_of_mem e hx))
      (by simp only [List.length_append, List.length_cons,
            List.length_nil] at hroom ⊢; omega)
    calc enqueueAll cfg cur now q (e :: rest)
        = enqueueAll cfg cur now (queueAnimation cfg cur q e now) rest := rfl
      _ = enqueueAll cfg cur now (q ++ [stampEvent now e]) rest := by rw [h1]
      _ = (q ++ [stampEvent now e]) ++ rest.map (stampEvent now) := h2
      _ = q ++ (e :: rest).map (stampEvent now) := by simp

theorem enqueueAll_overflow_drops_oldest (cfg : AnimConfig)
    (cur : Option AnimEvent) (now : Nat) (events : List AnimEvent)
    (hmax : 1 ≤ cfg.maxQueueSize)
    (hlen : events.length = cfg.maxQueueSize + 1)
    (hfo : ∀ e ∈ events, e.type = "focus") :
    enqueueAll cfg cur now [] events = events.tail.map (stampEvent now) := by
  have hne : events ≠ [] := by
    intro h
    rw [h] at hlen
    simp at hlen
  obtain ⟨L1, z, hLz⟩ : ∃ L1 z, events = L1 ++ [z] :=
    ⟨events.dropLast, events.getLast hne,
      (List.dropLast_append_getLast hne).symm⟩
  subst hLz
  have hL1 : L1.length = cfg.maxQueueSize := by
    simp only [List.length_append, List.length_cons, List.length_nil] at hlen
    omega
  have h1 : enqueueAll cfg cur now [] L1 = L1.map (stampEvent now) := by
    have := enqueueAll_of_room cfg cur now L1 []
      (fun x hx => hfo x (by simp [hx])) (by simp [hL1])
    simpa using this
  have hz : z.type = "focus" := hfo z (by simp)
  have hzne : z.type ≠ "unfocus" := by rw [hz]; decide
  have hfull : cfg.maxQueueSize ≤ (L1.map (stampEvent now)).length := by
    simp [hL1]
  have hstep : enqueueAll cfg cur now [] (L1 ++ [z])
      = queueAnimation cfg cur (enqueueAll cfg cur now [] L1) z now := by
    simp [enqueueAll, List.foldl_append]
  rw [hstep, h1, queueAnimation_append_nonunfocus _ _ _ _ _ hzne,
    shiftIfFull, if_pos hfull]
  cases L1 with
  | nil =>
    rw [List.length_nil] at hL1
    omega
  | cons x xs => simp

/-- C4: the queue is bounded: (1) one enqueue step preserves
`length ≤ maxQueueSize` (for a positive bound); (2) so does any sequence
of enqueues from the empty queue; (3) an enqueue at or above the bound
drops the oldest pending intent and appends the new one (shown for
non-`unfocus` events, which no deduplication rule can discard); (4)
enqueueing `N + 1` non-collapsible (`focus`) intents with bound `N` from
empty leaves exactly the `N` most recent pending, the oldest absent. -/
theorem bounded_queue_invariant :
    (∀ (cfg : AnimConfig) (cur : Option AnimEvent) (q : List AnimEvent)
        (e : AnimEvent) (now : Nat),
      1 ≤ cfg.maxQueueSize → q.length ≤ cfg.maxQueueSize →
      (queueAnimation cfg cur q e now).length ≤ cfg.maxQueueSize) ∧
    (∀ (cfg : AnimConfig) (cur : Option AnimEvent) (now : Nat)
        (events : List AnimEvent),
      1 ≤ cfg.maxQueueSize →
      (enqueueAll cfg cur now [] events).length ≤ cfg.maxQueueSize) ∧
    (∀ (cfg : AnimConfig) (cur : Option AnimEvent) (q : List AnimEvent)
        (e : AnimEvent) (now : Nat),
      e.type ≠ "unfocus" → cfg.maxQueueSize ≤ q.length →
      queueAnimation cfg cur q e now = q.tail ++ [stampEvent now e]) ∧
    (∀ (cfg : AnimConfig) (cur : Option AnimEvent) (now : Nat)
        (events : List AnimEvent),
      1 ≤ cfg.maxQueueSize → events.length = cfg.maxQueueSize + 1 →
      (∀ e ∈ events, e.type = "focus") →
      enqueueAll cfg cur now [] events = events.tail.map (stampEvent now)) := by
  refine ⟨queueAnimation_length_le, ?_, ?_, enqueueAll_overflow_drops_oldest⟩
  · intro cfg cur now events hmax
    exact enqueueAll_length_le cfg cur now hmax events [] (by simp)
  · intro cfg cur q e now hne hfull
    rw [queueAnimation_append_nonunfocus cfg cur q e now hne,
      shiftIfFull, if_pos hfull]

theorem bounded_queue_invariant_witness :
    enqueueAll ⟨1000, 5000, 500, 2⟩ none 7 []
        [mkFocusEvent "a1" none, mkFocusEvent "a2" none, mkFocusEvent "a3" none]
      = ([mkFocusEvent "a1" none, mkFocusEvent "a2" none,
          mkFocusEvent "a3" none]).tail.map (stampEvent 7) :=
  bounded_queue_invariant.2.2.2 ⟨1000, 5000, 500, 2⟩ none 7
    [mkFocusEvent "a1" none, mkFocusEvent "a2" none, mkFocusEvent "a3" none]
    (by decide) (by decide) (by decide)

/-- Marks the trace events that bracket one service cycle: the dequeue
(setting the in-flight reference) and its completion (clearing it). -/
def isServiceBoundary : TraceEv → Bool
  | TraceEv.beginService _ => true
  | TraceEv.finishService _ => true
  | _ => false

/-- A trace is serialized when it is a sequence of complete service
blocks: each `beginService e` is followed by boundary-free work and then
its own `finishService e` before any further block begins — i.e. at most
one intent is ever in flight, and it fully completes before the next is
dequeued. -/
inductive Serialized : List TraceEv → Prop
  | nil : Serialized []
  | block (e : AnimEvent) (mid rest : List TraceEv)
      (hmid : ∀ x ∈ mid, isServiceBoundary x = false)
      (hrest : Serialized rest) :
      Serialized (TraceEv.beginService e
        :: (mid ++ TraceEv.finishService e :: rest))

theorem serviceActions_not_boundary (cfg : AnimConfig) (R : RendererOracle)
    (e : AnimEvent) :
    ∀ x ∈ serviceActions cfg R e, isServiceBoundary x = false := by
  intro x hx
  unfold serviceActions at hx
  by_cases h1 : e.type = "focus"
  · by_cases h2 : R e = true
    · simp [h1, h2] at hx
      rcases hx with rfl | rfl <;> rfl
    · simp [h1, h2] at hx
      rcases hx with rfl | rfl <;> rfl
  · by_cases h3 : e.type = "unfocus"
    · by_cases h2 : R e = true
      · simp [h1, h3, h2] at hx
        rcases hx with rfl | rfl <;> rfl
      · simp [h1, h3, h2] at hx
        rcases hx with rfl | rfl <;> rfl
    · simp [h1, h3] at hx

theorem serialized_processLoop (cfg : AnimConfig) (R : RendererOracle) :
    ∀ events : List AnimEvent, Serialized (processLoop cfg R events) := by
  intro events
  induction events with
  | nil => exact Serialized.nil
  | cons e rest ih =>
    have hshape : processLoop cfg R (e :: rest)
        = TraceEv.beginService e :: (serviceActions cfg R e
            ++ TraceEv.finishService e :: processLoop cfg R rest) := by
      simp [processLoop, serviceBlock]
    rw [hshape]
    exact Serialized.block e _ _ (serviceActions_not_boundary cfg R e) ih

theorem processLoop_eq_join (cfg : AnimConfig) (R : RendererOracle) :
    ∀ events : List AnimEvent,
      processLoop cfg R events = (events.map (serviceBlock cfg R)).flatten := by
  intro events
  induction events with
  | nil => rfl
  | cons e rest ih => simp [processLoop, ih]

theorem processQueue_trace (cfg : AnimConfig) (R : RendererOracle)
    (st : QueueState) (h : st.isProcessing = false) :
    (processQueue cfg R st).2 = processLoop cfg R st.queue := by
  cases hq : st.queue with
  | nil => simp [processQueue, h, hq, processLoop]
  | cons e rest => simp [processQueue, h, hq, processLoop]

/-- C5: the consumer is single-flight and FIFO over the surviving queue: a
call while `isProcessing` is set does nothing (the re-entrancy guard), and
otherwise the produced trace is exactly the concatenation, in queue order,
of one complete service block per pending intent — each block being the
renderer invocation plus its timing floor (minimum display time for focus,
transition delay for unfocus) bracketed by the setting and clearing of the
in-flight reference — and the trace is serialized: no block begins before
the previous one finishes. -/
theorem consumer_serializes_fifo (cfg : AnimConfig) (R : RendererOracle)
    (st : QueueState) :
    (st.isProcessing = true → processQueue cfg R st = (st, [])) ∧
    (st.isProcessing = false →
      (processQueue cfg R st).2 = (st.queue.map (serviceBlock cfg R)).flatten ∧
      Serialized (processQueue cfg R st).2) := by
  constructor
  · intro h
    simp [processQueue, h]
  · intro h
    refine ⟨?_, ?_⟩
    · rw [processQueue_trace cfg R st h, processLoop_eq_join]
    · rw [processQueue_trace cfg R st h]
      exact serialized_processLoop cfg R st.queue

theorem consumer_serializes_fifo_witness :
    (processQueue CONFIG (fun _ => true)
        ⟨[mkFocusEvent "a1" (some "b"), mkUnfocusEvent "a1"], false, none⟩).2
      = (([mkFocusEvent "a1" (some "b"), mkUnfocusEvent "a1"]).map
          (serviceBlock CONFIG (fun _ => true))).flatten ∧
    Serialized (processQueue CONFIG (fun _ => true)
        ⟨[mkFocusEvent "a1" (some "b"), mkUnfocusEvent "a1"], false, none⟩).2 :=
  (consumer_serializes_fifo CONFIG (fun _ => true)
      ⟨[mkFocusEvent "a1" (some "b"), mkUnfocusEvent "a1"], false, none⟩).2 rfl

/-- C6: when the renderer primitive invoked for the head intent throws
(`R e = false`), the error is caught at the consumer loop: the call still
returns a trace (nothing propagates), the error is logged inside the
head's service block, the remaining queued intents are serviced in full,
and the final state has an empty queue with the running flag and in-flight
reference cleared. -/
theorem renderer_error_caught_and_loop_continues (cfg : AnimConfig)
    (R : RendererOracle) (e : AnimEvent) (rest : List AnimEvent)
    (cur : Option AnimEvent) (herr : R e = false)
    (hkind : e.type = "focus" ∨ e.type = "unfocus") :
    (processQueue cfg R ⟨e :: rest, false, cur⟩).2
      = serviceBlock cfg R e ++ processLoop cfg R rest ∧
    TraceEv.errorLogged e.agentId
      ∈ (processQueue cfg R ⟨e :: rest, false, cur⟩).2 ∧
    (processQueue cfg R ⟨e :: rest, false, cur⟩).1 = ⟨[], false, none⟩ := by
  have hpq : processQueue cfg R ⟨e :: rest, false, cur⟩
      = (⟨[], false, none⟩, serviceBlock cfg R e ++ processLoop cfg R rest) := by
    simp [processQueue]
  have hmem : TraceEv.errorLogged e.agentId ∈ serviceBlock cfg R e := by
    rcases hkind with hk | hk <;>
      simp [serviceBlock, serviceActions, hk, herr]
  refine ⟨by rw [hpq], ?_, by rw [hpq]⟩
  rw [hpq]
  exact List.mem_append_left _ hmem

theorem renderer_error_caught_witness :
    (processQueue CONFIG (fun _ => false)
        ⟨[mkFocusEvent "a1" none, mkUnfocusEvent "a1"], false, none⟩).2
      = serviceBlock CONFIG (fun _ => false) (mkFocusEvent "a1" none)
          ++ processLoop CONFIG (fun _ => false) [mkUnfocusEvent "a1"] ∧
    TraceEv.errorLogged "a1"
      ∈ (processQueue CONFIG (fun _ => false)
          ⟨[mkFocusEvent "a1" none, mkUnfocusEvent "a1"], false, none⟩).2 ∧
    (processQueue CONFIG (fun _ => false)
        ⟨[mkFocusEvent "a1" none, mkUnfocusEvent "a1"], false, none⟩).1
      = ⟨[], false, none⟩ :=
  renderer_error_caught_and_loop_continues CONFIG (fun _ => false)
    (mkFocusEvent "a1" none) [mkUnfocusEvent "a1"] none rfl (Or.inl rfl)

/-- C10: an intent whose kind is neither `focus` nor `unfocus` is appended
unconditionally at enqueue time (only the overflow rule applies — none of
the unfocus-only deduplication/cancellation rules), and at service time it
invokes no renderer primitive and waits no delay: its service block is
just the setting and clearing of the in-flight state, after which the
consumer advances to the remaining intents without error. -/
theorem unknown_kind_passthrough (cfg : AnimConfig) (cur : Option AnimEvent)
    (q : List AnimEvent) (e : AnimEvent) (now : Nat) (R : RendererOracle)
    (rest : List AnimEvent)
    (hnf : e.type ≠ "focus") (hnu : e.type ≠ "unfocus") :
    queueAnimation cfg cur q e now = shiftIfFull cfg q ++ [stampEvent now e] ∧
    serviceBlock cfg R e
      = [TraceEv.beginService e, TraceEv.finishService e] ∧
    processQueue cfg R ⟨e :: rest, false, none⟩
      = (⟨[], false, none⟩,
         [TraceEv.beginService e, TraceEv.finishService e]
           ++ processLoop cfg R rest) := by
  have h1 := queueAnimation_append_nonunfocus cfg cur q e now hnu
  have h2 : serviceBlock cfg R e
      = [TraceEv.beginService e, TraceEv.finishService e] := by
    simp [serviceBlock, serviceActions, hnf, hnu]
  refine ⟨h1, h2, ?_⟩
  simp [processQueue, h2]

theorem unknown_kind_passthrough_witness :
    queueAnimation CONFIG none [] ⟨"pulse", "a1", none, 0⟩ 7
      = shiftIfFull CONFIG [] ++ [stampEvent 7 ⟨"pulse", "a1", none, 0⟩] ∧
    serviceBlock CONFIG (fun _ => true) ⟨"pulse", "a1", none, 0⟩
      = [TraceEv.beginService ⟨"pulse", "a1", none, 0⟩,
         TraceEv.finishService ⟨"pulse", "a1", none, 0⟩] ∧
    processQueue CONFIG (fun _ => true)
        ⟨[⟨"pulse", "a1", none, 0⟩], false, none⟩
      = (⟨[], false, none⟩,
         [TraceEv.beginService ⟨"pulse", "a1", none, 0⟩,
          TraceEv.finishService ⟨"pulse", "a1", none, 0⟩]
           ++ processLoop CONFIG (fun _ => true) []) :=
  unknown_kind_passthrough CONFIG none [] ⟨"pulse", "a1", none, 0⟩ 7
    (fun _ => true) [] (by decide) (by decide)

/-- C9: `onRemoved` deletes the agent's record and its status-history
entry and emits no intent; a subsequent `onAdded` for the same agent with
status `idle` emits no intent either, and records a fresh `idle` history
entry — no transition is evaluated against any pre-removal history, which
is gone. -/
theorem removal_clears_state (st : StoreState) (a b : AgentRecord)
    (hid : b.id = a.id) (hidle : b.status = "idle") :
    (handleAgentRemoved st a).2 = [] ∧
    mapGet a.id (handleAgentRemoved st a).1.agents = none ∧
    mapGet a.id (handleAgentRemoved st a).1.previousStatuses = none ∧
    (handleAgentAdded (handleAgentRemoved st a).1 b).2 = [] ∧
    mapGet a.id
        (handleAgentAdded (handleAgentRemoved st a).1 b).1.previousStatuses
      = some "idle" := by
  refine ⟨rfl, mapGet_mapDelete_self _ _, mapGet_mapDelete_self _ _, ?_, ?_⟩
  · simp [handleAgentAdded, hidle]
  · simp only [handleAgentAdded, hidle]
    rw [if_neg (by decide)]
    rw [← hid, ← hidle]
    exact mapGet_mapSet_self b.id b.status _

theorem removal_clears_state_witness :
    (handleAgentRemoved
        ⟨[("a1", ⟨"a1", "", "working", some "b"⟩)], [("a1", "working")]⟩
        ⟨"a1", "", "working", some "b"⟩).2 = [] ∧
    mapGet "a1" (handleAgentRemoved
        ⟨[("a1", ⟨"a1", "", "working", some "b"⟩)], [("a1", "working")]⟩
        ⟨"a1", "", "working", some "b"⟩).1.agents = none ∧
    mapGet "a1" (handleAgentRemoved
        ⟨[("a1", ⟨"a1", "", "working", some "b"⟩)], [("a1", "working")]⟩
        ⟨"a1", "", "working", some "b"⟩).1.previousStatuses = none ∧
    (handleAgentAdded (handleAgentRemoved
        ⟨[("a1", ⟨"a1", "", "working", some "b"⟩)], [("a1", "working")]⟩
        ⟨"a1", "", "working", some "b"⟩).1 ⟨"a1", "", "idle", none⟩).2 = [] ∧
    mapGet "a1" (handleAgentAdded (handleAgentRemoved
        ⟨[("a1", ⟨"a1", "", "working", some "b"⟩)], [("a1", "working")]⟩
        ⟨"a1", "", "working", some "b"⟩).1
        ⟨"a1", "", "idle", none⟩).1.previousStatuses = some "idle" :=
  removal_clears_state
    ⟨[("a1", ⟨"a1", "", "working", some "b"⟩)], [("a1", "working")]⟩
    ⟨"a1", "", "working", some "b"⟩ ⟨"a1", "", "idle", none⟩ rfl rfl

/-- C1 (amended): on a status-changed `onModified` delivery for an agent
with recorded history `sprev`, a `focus` intent carrying
`record.currentTask` is emitted iff the NEW status is `working`
(regardless of what the previous status was); an `unfocus` intent is
emitted iff the previous status was `working` and the new one is `idle`;
every other changed transition emits no intent; and the status history is
updated to the new status in all changed cases. -/
theorem modified_transition_intents (st : StoreState) (rec : AgentRecord)
    (sprev : String)
    (hprev : mapGet rec.id st.previousStatuses = some sprev)
    (hch : sprev ≠ rec.status) :
    ((handleAgentModified st rec).2 = [mkFocusEvent rec.id rec.currentTask]
      ↔ rec.status = "working") ∧
    ((handleAgentModified st rec).2 = [mkUnfocusEvent rec.id]
      ↔ (sprev = "working" ∧ rec.status = "idle")) ∧
    ((rec.status ≠ "working" ∧ ¬(sprev = "working" ∧ rec.status = "idle")) →
      (handleAgentModified st rec).2 = []) ∧
    mapGet rec.id (handleAgentModified st rec).1.previousStatuses
      = some rec.status := by
  have hne : mapGet rec.id st.previousStatuses ≠ some rec.status := by
    rw [hprev]
    simpa using hch
  have hmod : handleAgentModified st rec
      = (⟨mapSet rec.id rec st.agents,
          mapSet rec.id rec.status st.previousStatuses⟩,
         if rec.status = "working" then [mkFocusEvent rec.id rec.currentTask]
         else if rec.status = "idle" ∧
             mapGet rec.id st.previousStatuses = some "working" then
           [mkUnfocusEvent rec.id]
         else []) := by
    simp only [handleAgentModified]
    rw [if_pos hne]
  have h2eq : (handleAgentModified st rec).2
      = (if rec.status = "working" then [mkFocusEvent rec.id rec.currentTask]
         else if rec.status = "idle" ∧
             mapGet rec.id st.previousStatuses = some "working" then
           [mkUnfocusEvent rec.id]
         else []) := by rw [hmod]
  have hps : (handleAgentModified st rec).1.previousStatuses
      = mapSet rec.id rec.status st.previousStatuses := by
    rw [hmod]
  by_cases hw : rec.status = "working"
  · have h2 : (handleAgentModified st rec).2
        = [mkFocusEvent rec.id rec.currentTask] := by
      rw [h2eq, if_pos hw]
    refine ⟨?_, ?_, ?_, ?_⟩
    · rw [h2]
      exact ⟨fun _ => hw, fun _ => rfl⟩
    · rw [h2]
      constructor
      · intro hcon
        simp [mkFocusEvent, mkUnfocusEvent] at hcon
      · rintro ⟨hsw, hsi⟩
        exact absurd (hw.symm.trans hsi) (by decide)
    · rintro ⟨hnw, _⟩
      exact absurd hw hnw
    · rw [hps]
      exact mapGet_mapSet_self rec.id rec.status st.previousStatuses
  · by_cases hi : rec.status = "idle" ∧
        mapGet rec.id st.previousStatuses = some "working"
    · have hsw : sprev = "working" := by
        have := hi.2
        rw [hprev] at this
        simpa using this
      have h2 : (handleAgentModified st rec).2 = [mkUnfocusEvent rec.id] := by
        rw [h2eq, if_neg hw, if_pos hi]
      refine ⟨?_, ?_, ?_, ?_⟩
      · rw [h2]
        constructor
        · intro hcon
          simp [mkFocusEvent, mkUnfocusEvent] at hcon
        · intro hww
          exact absurd hww hw
      · rw [h2]
        exact ⟨fun _ => ⟨hsw, hi.1⟩, fun _ => rfl⟩
      · rintro ⟨_, hnb⟩
        exact absurd ⟨hsw, hi.1⟩ hnb
      · rw [hps]
        exact mapGet_mapSet_self rec.id rec.status st.previousStatuses
    · have h2 : (handleAgentModified st rec).2 = [] := by
        rw [h2eq, if_neg hw, if_neg hi]
      refine ⟨?_, ?_, ?_, ?_⟩
      · rw [h2]
        constructor
        · intro hcon
          simp at hcon
        · intro hww
          exact absurd hww hw
      · rw [h2]
        constructor
        · intro hcon
          simp at hcon
        · rintro ⟨hsw, hsi⟩
          exact absurd ⟨hsi, by rw [hprev, hsw]⟩ hi
      · intro _
        exact h2
      · rw [hps]
        exact mapGet_mapSet_self rec.id rec.status st.previousStatuses

theorem modified_transition_intents_witness :
    ((handleAgentModified
        ⟨[("a1", ⟨"a1", "", "idle", none⟩)], [("a1", "idle")]⟩
        ⟨"a1", "", "working", some "build"⟩).2
      = [mkFocusEvent "a1" (some "build")]
      ↔ ("working" : String) = "working") ∧
    ((handleAgentModified
        ⟨[("a1", ⟨"a1", "", "idle", none⟩)], [("a1", "idle")]⟩
        ⟨"a1", "", "working", some "build"⟩).2
      = [mkUnfocusEvent "a1"]
      ↔ (("idle" : String) = "working" ∧ ("working" : String) = "idle")) ∧
    ((("working" : String) ≠ "working" ∧
        ¬(("idle" : String) = "working" ∧ ("working" : String) = "idle")) →
      (handleAgentModified
        ⟨[("a1", ⟨"a1", "", "idle", none⟩)], [("a1", "idle")]⟩
        ⟨"a1", "", "working", some "build"⟩).2 = []) ∧
    mapGet "a1" (handleAgentModified
        ⟨[("a1", ⟨"a1", "", "idle", none⟩)], [("a1", "idle")]⟩
        ⟨"a1", "", "working", some "build"⟩).1.previousStatuses
      = some "working" :=
  modified_transition_intents
    ⟨[("a1", ⟨"a1", "", "idle", none⟩)], [("a1", "idle")]⟩
    ⟨"a1", "", "working", some "build"⟩ "idle" (by decide) (by decide)

/-- C1 counterexample: with recorded history `"blocked"` (a value outside
the two canonical statuses) and a modified delivery with status
`"working"`, the claim says this changed transition is not `idle →
working` and must emit no intent — but the code emits a `focus` intent,
because `handleAgentModified` checks only the NEW status for the focus
branch. -/
theorem focus_on_noncanonical_transition_counterexample :
    mapGet "a1" (StoreState.previousStatuses
        ⟨[("a1", ⟨"a1", "", "blocked", none⟩)], [("a1", "blocked")]⟩)
      = some "blocked" ∧
    ("blocked" : String) ≠ "idle" ∧
    ("blocked" : String) ≠ "working" ∧
    (handleAgentModified
        ⟨[("a1", ⟨"a1", "", "blocked", none⟩)], [("a1", "blocked")]⟩
        ⟨"a1", "", "working", some "t"⟩).2
      = [mkFocusEvent "a1" (some "t")] ∧
    (handleAgentModified
        ⟨[("a1", ⟨"a1", "", "blocked", none⟩)], [("a1", "blocked")]⟩
        ⟨"a1", "", "working", some "t"⟩).2 ≠ [] := by
  decide
